import Mathlib

/-!
Verification development for `multi_sheet_photo_renamer.py` (MSAFR).

The Python program matches product photos to catalog rows read from a
multi-sheet spreadsheet.  Per row it extracts lowercased, trimmed attribute
values from the configured columns, selects every remaining file of the
in-memory index `indice_file` whose lowercase filename contains all
non-empty values as substrings, and renames the selected files to
`{ean}-{i}{original extension}`.  Rows with no matching file are
accumulated in `ean_non_trovati` and emitted in a CSV report.

This file is a shallow embedding of that code:

* Python strings become Lean `String`; `str.lower()` is `pyLower`,
  `str.strip()` is `pyStrip`, the `in` substring test is `strContains`
  (all restricted to the ASCII behaviour, which is what the program's
  data exercises).
* the dict `indice_file` (insertion-ordered, unique keys) becomes an
  association list `List (String × String)`; `del d[k]` becomes
  `pyDictDel`, which raises `KeyError` (an `Except.error`) when the key
  is absent, exactly as Python does; `delCaught` is `del` as observed
  under the enclosing `try/except` of `rename_files`.
* `os.rename` is an oracle `renameOk : String → String → Bool` deciding,
  from the old and new names, whether the filesystem call succeeds; the
  embedding additionally records the sequence of attempted rename calls.
* `datetime.now()` is an opaque `now : String` parameter.
-/

/-- Test `strLeads n l`: the char list `n` is an initial segment of `l`. -/
def strLeads : List Char → List Char → Bool
  | [], _ => true
  | _ :: _, [] => false
  | a :: as, b :: bs => a == b && strLeads as bs

/-- Test `strFindSub n l`: `n` occurs contiguously somewhere inside `l`
(Python's `n in l` on strings, over char lists). -/
def strFindSub (n : List Char) : List Char → Bool
  | [] => n.isEmpty
  | h :: t => strLeads n (h :: t) || strFindSub n t

/-- Python's substring test `needle in hay`. -/
def strContains (hay needle : String) : Bool :=
  strFindSub needle.toList hay.toList

/-- Python's `str.lower()` (ASCII case folding). -/
def pyLower (s : String) : String :=
  String.mk (s.toList.map Char.toLower)

/-- ASCII whitespace stripped by Python's `str.strip()`. -/
def isSpazio (c : Char) : Bool :=
  c == ' ' || c == '\t' || c == '\n' || c == '\r' || c == '\x0b' || c == '\x0c'

/-- Python's `str.strip()`. -/
def pyStrip (s : String) : String :=
  String.mk (((s.toList.dropWhile isSpazio).reverse.dropWhile isSpazio).reverse)

/-- Index of the last `'.'` in a char list, if any. -/
def lastDotPos : List Char → Option Nat
  | [] => none
  | c :: cs =>
    match lastDotPos cs with
    | some i => some (i + 1)
    | none => if c == '.' then some 0 else none

/-- The extension part of `os.path.splitext(nome)[1]` for a basename:
everything from the last dot on, unless every character before that dot
is itself a dot (so `".hidden"` has no extension), as in CPython. -/
def splitextExt (nome : String) : String :=
  match lastDotPos nome.toList with
  | none => ""
  | some i =>
    if (nome.toList.take i).any (fun c => c != '.') then
      String.mk (nome.toList.drop i)
    else ""

/-- Remove the entry with the given key from the association list
(the effect of a successful `del indice_file[nome]`). -/
def eraseKey : List (String × String) → String → List (String × String)
  | [], _ => []
  | p :: t, nome => if p.1 == nome then t else p :: eraseKey t nome

/-- Whether the dict has an entry with the given key. -/
def keyPresente (idx : List (String × String)) (nome : String) : Bool :=
  idx.any (fun p => p.1 == nome)

/-- Python's `del indice_file[nome]`: removes the entry when present and
raises `KeyError` when absent. -/
def pyDictDel (idx : List (String × String)) (nome : String) :
    Except String (List (String × String)) :=
  if keyPresente idx nome then Except.ok (eraseKey idx nome)
  else Except.error "KeyError"

/-- Python's `del indice_file[nome]` as observed under the `try/except` of
`rename_files`: a raised `KeyError` is caught and the dict is unchanged. -/
def delCaught (idx : List (String × String)) (nome : String) :
    List (String × String) :=
  match pyDictDel idx nome with
  | Except.ok r => r
  | Except.error _ => idx

/-- The inner test of `process_sheet`'s matching loop: `tutti_presenti`
holds iff every truthy (non-empty) value occurs in the lowercase name. -/
def matchesValues (valori : List String) (nomeFileLower : String) : Bool :=
  valori.all (fun v => v == "" || strContains nomeFileLower v)

/-- The dict comprehension `indice_file = {file: file.lower() for file in file_jpg}`. -/
def buildIndice (fileJpg : List String) : List (String × String) :=
  fileJpg.map (fun f => (f, pyLower f))

/-- The `file_corrispondenti` computation of `process_sheet`: iterate the
index in order, skip names already in `file_rinominati`, and keep those
whose lowercase name passes `matchesValues`. -/
def findCorrFiles (valori : List String) (indiceFile : List (String × String))
    (fileRinominati : List String) : List String :=
  (indiceFile.filter
    (fun p => !(fileRinominati.contains p.1) && matchesValues valori p.2)).map
    (fun p => p.1)

/-- The target name `nuovo_nome = f"{ean}-{i}{estensione}"` where `estensione` is
`os.path.splitext(vecchio_nome)[1]`. -/
def nuovoNome (ean : String) (i : Nat) (vecchioNome : String) : String :=
  ean ++ "-" ++ toString i ++ splitextExt vecchioNome

/-- The mutable state threaded through `rename_files`. -/
structure RenameState where
  indiceFile : List (String × String)
  fileRinominati : List String
deriving Repr, DecidableEq

/-- Result of `rename_files`: the returned counter, the ordered sequence
of `os.rename(vecchio, nuovo)` calls attempted, and the final state. -/
structure RenameResult where
  conteggio : Nat
  chiamate : List (String × String)
  stato : RenameState
deriving Repr, DecidableEq

/-- The `for i, vecchio_nome in enumerate(files)` loop of `rename_files`:
attempt each rename; on success add the old name to `file_rinominati`,
bump the counter and delete the index entry; on failure just continue. -/
def renameLoop (renameOk : String → String → Bool) (ean : String) :
    List String → Nat → RenameState → RenameResult
  | [], _, st => ⟨0, [], st⟩
  | f :: fs, i, st =>
    let nn := nuovoNome ean i f
    if renameOk f nn then
      let st' : RenameState := ⟨delCaught st.indiceFile f, f :: st.fileRinominati⟩
      let r := renameLoop renameOk ean fs (i + 1) st'
      ⟨r.conteggio + 1, (f, nn) :: r.chiamate, r.stato⟩
    else
      let r := renameLoop renameOk ean fs (i + 1) st
      ⟨r.conteggio, (f, nn) :: r.chiamate, r.stato⟩

/-- The function `rename_files(files, ean, indice_file, photo_folder, file_rinominati)`. -/
def rename_files (renameOk : String → String → Bool) (files : List String)
    (ean : String) (st : RenameState) : RenameResult :=
  renameLoop renameOk ean files 0 st

/-- One spreadsheet row as read with `dtype=str`: each configured column's
cell (`none` for a NaN/empty cell) plus the `EAN` cell. -/
structure Riga where
  attrs : List (String × Option String)
  eanCell : Option String
deriving Repr, DecidableEq

/-- The `valori` dict: for each column with a non-null cell, the value
`str(riga[colonna]).lower().strip()`. -/
def estraiValori (attrs : List (String × Option String)) : List (String × String) :=
  attrs.filterMap (fun p => p.2.map (fun s => (p.1, pyStrip (pyLower s))))

/-- One record of `ean_non_trovati`: row number (1-based), EAN, timestamp
string, and the raw values of the non-null attribute cells. -/
structure InfoRiga where
  rigaExcel : Nat
  ean : String
  dataStr : String
  attrVals : List (String × String)
deriving Repr, DecidableEq

/-- The raw attribute values stored into an `info_riga` record:
`info_riga[colonna] = riga[colonna]` for each non-null cell. -/
def rawAttrVals (attrs : List (String × Option String)) : List (String × String) :=
  attrs.filterMap (fun p => p.2.map (fun s => (p.1, s)))

/-- The mutable state threaded through `process_sheet`. -/
structure SheetState where
  indiceFile : List (String × String)
  fileRinominati : List String
  eanNonTrovati : List InfoRiga
  codeno : List String
  codesi : List String
  renamed : Nat
deriving Repr, DecidableEq

/-- The body of `process_sheet`'s row loop for one row `riga` at dataframe
index `idx`: skip when the EAN cell is null; otherwise match the remaining
index entries and either rename the matches or append an unmatched record. -/
def processRow (renameOk : String → String → Bool) (now : String) (idx : Nat)
    (riga : Riga) (st : SheetState) : SheetState :=
  match riga.eanCell with
  | none => st
  | some eanRaw =>
    let ean := pyStrip eanRaw
    let valori := estraiValori riga.attrs
    let corr := findCorrFiles (valori.map (fun p => p.2)) st.indiceFile st.fileRinominati
    if corr.isEmpty then
      let info : InfoRiga := ⟨idx + 1, ean, now, rawAttrVals riga.attrs⟩
      { st with eanNonTrovati := st.eanNonTrovati ++ [info],
                codeno := st.codeno ++ [ean] }
    else
      let r := rename_files renameOk corr ean ⟨st.indiceFile, st.fileRinominati⟩
      { st with indiceFile := r.stato.indiceFile,
                fileRinominati := r.stato.fileRinominati,
                codesi := st.codesi ++ [ean],
                renamed := st.renamed + r.conteggio }

/-- The loop `for idx, riga in df.iterrows()`: fold `processRow` over the rows in
sheet order, with `idx` running over the 0-based dataframe positions. -/
def processRows (renameOk : String → String → Bool) (now : String) :
    List Riga → Nat → SheetState → SheetState
  | [], _, st => st
  | r :: rs, idx, st =>
    processRows renameOk now rs (idx + 1) (processRow renameOk now idx r st)

/-- The function `process_sheet`: process all rows of one sheet starting at index 0. -/
def process_sheet (renameOk : String → String → Bool) (now : String)
    (righe : List Riga) (st : SheetState) : SheetState :=
  processRows renameOk now righe 0 st

/-- The function `make_report`: writes a CSV (header then the accumulated records) iff
`ean_non_trovati` is non-empty; `none` models "no report file written". -/
def make_report (eanNonTrovati : List InfoRiga) (columnsToMatch : List String) :
    Option (List String × List InfoRiga) :=
  if eanNonTrovati.isEmpty then none
  else some (["riga_excel", "ean", "data"] ++ columnsToMatch, eanNonTrovati)

/-- Observer: the sublist of `files` whose rename call succeeds, with the
per-call index starting at `i` (these are exactly the names `renameLoop`
adds to `file_rinominati` and deletes from the index). -/
def successi (renameOk : String → String → Bool) (ean : String) :
    List String → Nat → List String
  | [], _ => []
  | f :: fs, i =>
    if renameOk f (nuovoNome ean i f) then
      f :: successi renameOk ean fs (i + 1)
    else successi renameOk ean fs (i + 1)

/-- Observer: the files a single row successfully renames (consumes) when
processed from state `st`. -/
def rowAdds (renameOk : String → String → Bool) (riga : Riga)
    (st : SheetState) : List String :=
  match riga.eanCell with
  | none => []
  | some eanRaw =>
    let corr := findCorrFiles ((estraiValori riga.attrs).map (fun p => p.2))
      st.indiceFile st.fileRinominati
    if corr.isEmpty then [] else successi renameOk (pyStrip eanRaw) corr 0

/-- Observer: per-row consumption trace of a run — the `k`-th element is
the set of files the `k`-th row successfully renames. -/
def renameTrace (renameOk : String → String → Bool) (now : String) :
    List Riga → Nat → SheetState → List (List String)
  | [], _, _ => []
  | r :: rs, idx, st =>
    rowAdds renameOk r st ::
      renameTrace renameOk now rs (idx + 1) (processRow renameOk now idx r st)

/-- Observer: the row is processed (non-null EAN) and its match set
against state `st` is empty — the condition under which `process_sheet`
appends an unmatched record. -/
def rowNoMatch (riga : Riga) (st : SheetState) : Bool :=
  match riga.eanCell with
  | none => false
  | some _ =>
    (findCorrFiles ((estraiValori riga.attrs).map (fun p => p.2))
      st.indiceFile st.fileRinominati).isEmpty

/-- Observer: row `k` of `righe` is processed (non-null EAN) and finds no
matching file in the state reached when it is its turn. -/
def rowUnmatched (renameOk : String → String → Bool) (now : String)
    (righe : List Riga) (idx0 : Nat) (st : SheetState) (k : Nat) : Bool :=
  rowNoMatch (righe.getD k ⟨[], none⟩)
    (processRows renameOk now (righe.take k) idx0 st)

/-- Observer: the match set (`file_corrispondenti`) row `k` of `righe` is
offered, computed from the state reached when it is row `k`'s turn. -/
def rowCorr (renameOk : String → String → Bool) (now : String)
    (righe : List Riga) (idx0 : Nat) (st : SheetState) (k : Nat) : List String :=
  let stk := processRows renameOk now (righe.take k) idx0 st
  findCorrFiles ((estraiValori (righe.getD k ⟨[], none⟩).attrs).map (fun p => p.2))
    stk.indiceFile stk.fileRinominati

/-! ### Concrete inputs used in closed instantiations -/

/-- The spec's order-sensitivity photo pool. -/
def exIdx : List (String × String) := buildIndice ["red-shoe.jpg", "red-shoe-2.jpg"]

/-- A fresh sheet state over `exIdx`. -/
def exSt : SheetState := ⟨exIdx, [], [], [], [], 0⟩

/-- Row A: only attribute value `red`, EAN `1111`. -/
def rigaRossoA : Riga := ⟨[("Color", some "red")], some "1111"⟩

/-- Row B: only attribute value `red`, EAN `2222`. -/
def rigaRossoB : Riga := ⟨[("Color", some "red")], some "2222"⟩

/-- Filesystem oracle: every rename succeeds. -/
def okSempre : String → String → Bool := fun _ _ => true

/-- Filesystem oracle: every rename fails. -/
def okMai : String → String → Bool := fun _ _ => false

/-- Filesystem oracle: renaming `red-shoe.jpg` fails, everything else succeeds. -/
def okParziale : String → String → Bool := fun f _ => f != "red-shoe.jpg"

example : strContains "blueskirt.jpg" "blue" = true := by decide
example : strContains "sky-blue.jpg" "blue" = true := by decide
example : strContains "blu.jpg" "blue" = false := by decide
example : pyLower "SKY-BLUE.JPG" = "sky-blue.jpg" := by decide
example : pyStrip "  a b\t" = "a b" := by decide
example : splitextExt "red-shoe.jpg" = ".jpg" := by decide
example : splitextExt ".hidden" = "" := by decide
example : splitextExt "a.b.JPG" = ".JPG" := by decide
example : nuovoNome "123" 2 "x.jpg" = "123-2.jpg" := by decide

/-! ### Substring semantics of the Python `in` test -/

lemma strLeads_iff (n : List Char) : ∀ l, strLeads n l = true ↔ ∃ r, l = n ++ r := by
  induction n with
  | nil => intro l; simp [strLeads]
  | cons a as ih =>
    intro l
    cases l with
    | nil =>
      simp [strLeads]
    | cons b bs =>
      simp only [strLeads, Bool.and_eq_true, beq_iff_eq, ih bs, List.cons_append]
      constructor
      · rintro ⟨rfl, r, rfl⟩; exact ⟨r, rfl⟩
      · rintro ⟨r, hr⟩
        injection hr with h1 h2
        exact ⟨h1.symm, r, h2⟩

lemma strFindSub_iff (n : List Char) : ∀ l, strFindSub n l = true ↔ ∃ p r, l = p ++ n ++ r := by
  intro l
  induction l with
  | nil =>
    simp only [strFindSub, List.isEmpty_iff]
    constructor
    · rintro rfl; exact ⟨[], [], rfl⟩
    · rintro ⟨p, r, h⟩
      rcases List.append_eq_nil.mp ((List.append_eq_nil.mp h.symm).1) with ⟨-, h2⟩
      exact h2
  | cons c t ih =>
    simp only [strFindSub, Bool.or_eq_true, ih, strLeads_iff]
    constructor
    · rintro (⟨r, hr⟩ | ⟨p, r, hr⟩)
      · exact ⟨[], r, by simpa using hr⟩
      · exact ⟨c :: p, r, by simp [hr]⟩
    · rintro ⟨p, r, hr⟩
      cases p with
      | nil => exact Or.inl ⟨r, by simpa using hr⟩
      | cons x xs =>
        rw [List.cons_append, List.cons_append] at hr
        injection hr with h1 h2
        exact Or.inr ⟨xs, r, h2⟩

/-- Containment `strContains hay needle` holds iff `needle` occurs as a contiguous
substring of `hay` (stated over the underlying character lists). -/
lemma strContains_iff (hay needle : String) :
    strContains hay needle = true ↔
      ∃ p r, hay.toList = p ++ needle.toList ++ r := by
  simpa [strContains] using strFindSub_iff needle.toList hay.toList

lemma matchesValues_iff (valori : List String) (lo : String) :
    matchesValues valori lo = true ↔
      ∀ v ∈ valori, v ≠ "" → strContains lo v = true := by
  simp only [matchesValues, List.all_eq_true, Bool.or_eq_true, beq_iff_eq]
  exact forall_congr' fun v => forall_congr' fun _ => or_iff_not_imp_left

lemma mem_findCorrFiles (valori : List String) (idx : List (String × String))
    (rin : List String) (nome : String) :
    nome ∈ findCorrFiles valori idx rin ↔
      ∃ lo, (nome, lo) ∈ idx ∧ rin.contains nome = false ∧
        matchesValues valori lo = true := by
  simp only [findCorrFiles, List.mem_map, List.mem_filter, Bool.and_eq_true,
    Bool.not_eq_true']
  constructor
  · rintro ⟨⟨a, b⟩, ⟨hmem, h1, h2⟩, rfl⟩
    exact ⟨b, hmem, h1, h2⟩
  · rintro ⟨lo, hmem, h1, h2⟩
    exact ⟨(nome, lo), ⟨hmem, h1, h2⟩, rfl⟩

lemma mem_buildIndice (fileJpg : List String) (nome lo : String) :
    (nome, lo) ∈ buildIndice fileJpg ↔ nome ∈ fileJpg ∧ lo = pyLower nome := by
  simp only [buildIndice, List.mem_map, Prod.mk.injEq]
  constructor
  · rintro ⟨f, hf, rfl, rfl⟩; exact ⟨hf, rfl⟩
  · rintro ⟨hf, rfl⟩; exact ⟨nome, hf, rfl, rfl⟩

lemma findCorrFiles_nil_valori (fileJpg rin : List String) :
    findCorrFiles [] (buildIndice fileJpg) rin
      = fileJpg.filter (fun f => !(rin.contains f)) := by
  induction fileJpg with
  | nil => rfl
  | cons f fs ih =>
    show (((f, pyLower f) :: buildIndice fs).filter
        (fun p => !(rin.contains p.1) && matchesValues [] p.2)).map (fun p => p.1)
      = (f :: fs).filter (fun g => !(rin.contains g))
    rw [List.filter_cons, List.filter_cons]
    have ih' : (List.filter (fun p => !(rin.contains p.1) && matchesValues [] p.2)
        (buildIndice fs)).map (fun p => p.1)
        = List.filter (fun g => !(rin.contains g)) fs := ih
    cases hc : rin.contains f with
    | true => simpa [hc, matchesValues] using ih'
    | false => simpa [hc, matchesValues] using ih'

/-- C1: for every attribute-value mapping and every candidate file, the
matching loop of `process_sheet` selects the candidate iff every non-empty
value occurs as a contiguous substring of the candidate's lowercased
filename (and the candidate has not been consumed already); when the
mapping contributes no constraints, every remaining candidate matches. -/
theorem matcher_selects_iff_substrings (valori fileJpg rin : List String)
    (nome : String) :
    (nome ∈ findCorrFiles valori (buildIndice fileJpg) rin ↔
      nome ∈ fileJpg ∧ rin.contains nome = false ∧
        ∀ v ∈ valori, v ≠ "" →
          ∃ p r, (pyLower nome).toList = p ++ v.toList ++ r) ∧
    (valori = [] →
      findCorrFiles valori (buildIndice fileJpg) rin
        = fileJpg.filter (fun f => !(rin.contains f))) := by
  constructor
  · rw [mem_findCorrFiles]
    constructor
    · rintro ⟨lo, hmem, h1, h2⟩
      obtain ⟨hf, rfl⟩ := (mem_buildIndice fileJpg nome lo).mp hmem
      refine ⟨hf, h1, fun v hv hne => ?_⟩
      exact (strContains_iff _ _).mp ((matchesValues_iff valori _).mp h2 v hv hne)
    · rintro ⟨hf, h1, h2⟩
      refine ⟨pyLower nome, (mem_buildIndice fileJpg nome _).mpr ⟨hf, rfl⟩, h1, ?_⟩
      exact (matchesValues_iff valori _).mpr fun v hv hne =>
        (strContains_iff _ _).mpr (h2 v hv hne)
  · rintro rfl
    exact findCorrFiles_nil_valori fileJpg rin

/-- C1 witness: `"blue"` selects `"blueskirt.jpg"` but not `"blu.jpg"`,
and an empty mapping selects every remaining candidate. -/
theorem matcher_selects_iff_substrings_witness :
    "blueskirt.jpg" ∈
      findCorrFiles ["blue"] (buildIndice ["blueskirt.jpg", "blu.jpg"]) [] ∧
    findCorrFiles [] (buildIndice ["a.jpg", "b.jpg"]) ["b.jpg"] = ["a.jpg"] :=
  ⟨(matcher_selects_iff_substrings ["blue"] ["blueskirt.jpg", "blu.jpg"] []
      "blueskirt.jpg").1.mpr
    ⟨by decide, by decide, by
      intro v hv _
      have hveq : v = "blue" := by simpa using hv
      subst hveq
      exact ⟨[], "skirt.jpg".toList, by decide⟩⟩,
   by
    have h := (matcher_selects_iff_substrings [] ["a.jpg", "b.jpg"] ["b.jpg"] "x").2 rfl
    rw [h]; decide⟩

/-! ### Exclusive consumption across rows -/

lemma contains_eq_true_iff (l : List String) (a : String) :
    l.contains a = true ↔ a ∈ l := by simp

lemma contains_eq_false_iff (l : List String) (a : String) :
    l.contains a = false ↔ a ∉ l := by simp

lemma successi_subset (renameOk : String → String → Bool) (ean : String) :
    ∀ (files : List String) (i : Nat) (f : String),
      f ∈ successi renameOk ean files i → f ∈ files := by
  intro files
  induction files with
  | nil => intro i f h; simp [successi] at h
  | cons g gs ih =>
    intro i f h
    by_cases hg : renameOk g (nuovoNome ean i g) = true
    · simp only [successi, hg, if_true, List.mem_cons] at h
      rcases h with rfl | h
      · exact List.mem_cons_self _ _
      · exact List.mem_cons_of_mem _ (ih _ _ h)
    · simp only [successi, hg, if_false, Bool.false_eq_true] at h
      exact List.mem_cons_of_mem _ (ih _ _ h)

lemma eraseKey_not_present :
    ∀ (idx : List (String × String)) (nome : String),
      keyPresente idx nome = false → eraseKey idx nome = idx := by
  intro idx
  induction idx with
  | nil => intro nome _; rfl
  | cons p t ih =>
    intro nome h
    simp only [keyPresente, List.any_cons, Bool.or_eq_false_iff] at h
    simp only [eraseKey, h.1, Bool.false_eq_true, if_false]
    rw [ih nome h.2]

lemma delCaught_eq_eraseKey (idx : List (String × String)) (nome : String) :
    delCaught idx nome = eraseKey idx nome := by
  unfold delCaught pyDictDel
  cases hp : keyPresente idx nome with
  | true => simp
  | false => simpa using (eraseKey_not_present idx nome hp).symm

lemma renameLoop_rinominati (renameOk : String → String → Bool) (ean : String) :
    ∀ (files : List String) (i : Nat) (st : RenameState),
      (renameLoop renameOk ean files i st).stato.fileRinominati
        = (successi renameOk ean files i).reverse ++ st.fileRinominati := by
  intro files
  induction files with
  | nil => intro i st; rfl
  | cons f fs ih =>
    intro i st
    by_cases hg : renameOk f (nuovoNome ean i f) = true
    · simp only [renameLoop, successi, hg, if_true]
      rw [ih]
      simp
    · simp only [renameLoop, successi, hg, Bool.false_eq_true, if_false]
      rw [ih]

lemma findCorrFiles_not_rinominati (valori : List String)
    (idx : List (String × String)) (rin : List String) (f : String)
    (h : f ∈ findCorrFiles valori idx rin) : rin.contains f = false :=
  ((mem_findCorrFiles valori idx rin f).mp h).choose_spec.2.1

lemma processRow_rinominati (renameOk : String → String → Bool) (now : String)
    (idx : Nat) (r : Riga) (st : SheetState) :
    (processRow renameOk now idx r st).fileRinominati
      = (rowAdds renameOk r st).reverse ++ st.fileRinominati := by
  unfold processRow rowAdds
  cases r.eanCell with
  | none => rfl
  | some eanRaw =>
    simp only []
    cases hc : (findCorrFiles ((estraiValori r.attrs).map (fun p => p.2))
        st.indiceFile st.fileRinominati).isEmpty with
    | true => simp [hc]
    | false =>
      simp only [hc, Bool.false_eq_true, if_false]
      exact renameLoop_rinominati renameOk (pyStrip eanRaw) _ 0 _

lemma rowAdds_fresh (renameOk : String → String → Bool) (r : Riga)
    (st : SheetState) (f : String) (h : f ∈ rowAdds renameOk r st) :
    st.fileRinominati.contains f = false := by
  unfold rowAdds at h
  cases he : r.eanCell with
  | none => rw [he] at h; simp at h
  | some eanRaw =>
    rw [he] at h
    simp only [] at h
    cases hc : (findCorrFiles ((estraiValori r.attrs).map (fun p => p.2))
        st.indiceFile st.fileRinominati).isEmpty with
    | true => rw [hc] at h; simp at h
    | false =>
      rw [hc] at h
      simp only [Bool.false_eq_true, if_false] at h
      exact findCorrFiles_not_rinominati _ _ _ f
        (successi_subset renameOk (pyStrip eanRaw) _ 0 f h)

lemma processRows_rin_mono (renameOk : String → String → Bool) (now : String) :
    ∀ (rs : List Riga) (idx : Nat) (st : SheetState) (f : String),
      f ∈ st.fileRinominati →
      f ∈ (processRows renameOk now rs idx st).fileRinominati := by
  intro rs
  induction rs with
  | nil => intro idx st f h; exact h
  | cons r rs' ih =>
    intro idx st f h
    refine ih _ _ f ?_
    rw [processRow_rinominati]
    exact List.mem_append_right _ h

lemma trace_fresh (renameOk : String → String → Bool) (now : String) :
    ∀ (rs : List Riga) (idx : Nat) (st : SheetState) (f : String),
      f ∈ st.fileRinominati →
      ∀ k, f ∉ (renameTrace renameOk now rs idx st).getD k [] := by
  intro rs
  induction rs with
  | nil => intro idx st f hf k; simp [renameTrace]
  | cons r rs' ih =>
    intro idx st f hf k
    cases k with
    | zero =>
      simp only [renameTrace, List.getD_cons_zero]
      intro hmem
      have hfresh := rowAdds_fresh renameOk r st f hmem
      exact (contains_eq_false_iff _ _).mp hfresh hf
    | succ k' =>
      simp only [renameTrace, List.getD_cons_succ]
      refine ih _ _ f ?_ k'
      rw [processRow_rinominati]
      exact List.mem_append_right _ hf

lemma trace_mem_state (renameOk : String → String → Bool) (now : String) :
    ∀ (rs : List Riga) (idx : Nat) (st : SheetState) (i : Nat) (f : String),
      f ∈ (renameTrace renameOk now rs idx st).getD i [] →
      ∀ k, i < k →
        f ∈ (processRows renameOk now (rs.take k) idx st).fileRinominati := by
  intro rs
  induction rs with
  | nil => intro idx st i f hf k hik; simp [renameTrace] at hf
  | cons r rs' ih =>
    intro idx st i f hf k hik
    cases i with
    | zero =>
      simp only [renameTrace, List.getD_cons_zero] at hf
      cases k with
      | zero => omega
      | succ k' =>
        rw [List.take_succ_cons]
        simp only [processRows]
        refine processRows_rin_mono renameOk now _ _ _ f ?_
        rw [processRow_rinominati]
        exact List.mem_append_left _ (List.mem_reverse.mpr hf)
    | succ i' =>
      simp only [renameTrace, List.getD_cons_succ] at hf
      cases k with
      | zero => omega
      | succ k' =>
        rw [List.take_succ_cons]
        simp only [processRows]
        exact ih _ _ i' f hf k' (by omega)

lemma trace_disjoint (renameOk : String → String → Bool) (now : String) :
    ∀ (rs : List Riga) (idx : Nat) (st : SheetState) (i j : Nat), i < j →
      ∀ f, f ∈ (renameTrace renameOk now rs idx st).getD i [] →
        f ∉ (renameTrace renameOk now rs idx st).getD j [] := by
  intro rs
  induction rs with
  | nil => intro idx st i j hij f hf; simp [renameTrace] at hf
  | cons r rs' ih =>
    intro idx st i j hij f hf
    cases i with
    | zero =>
      cases j with
      | zero => omega
      | succ j' =>
        simp only [renameTrace, List.getD_cons_zero] at hf
        simp only [renameTrace, List.getD_cons_succ]
        refine trace_fresh renameOk now rs' (idx + 1) _ f ?_ j'
        rw [processRow_rinominati]
        exact List.mem_append_left _ (List.mem_reverse.mpr hf)
    | succ i' =>
      cases j with
      | zero => omega
      | succ j' =>
        simp only [renameTrace, List.getD_cons_succ] at hf ⊢
        exact ih _ _ i' j' (by omega) f hf

/-- C2: in any run, the sets of files two distinct rows successfully
rename are disjoint, and a file renamed by an earlier row never appears
in a later row's match set. -/
theorem rows_rename_disjoint (renameOk : String → String → Bool) (now : String)
    (righe : List Riga) (idx0 : Nat) (st : SheetState) (i j : Nat)
    (hij : i ≠ j) (f : String)
    (hf : f ∈ (renameTrace renameOk now righe idx0 st).getD i []) :
    f ∉ (renameTrace renameOk now righe idx0 st).getD j [] ∧
      (i < j → f ∉ rowCorr renameOk now righe idx0 st j) := by
  constructor
  · rcases Nat.lt_or_gt_of_ne hij with h | h
    · exact trace_disjoint renameOk now righe idx0 st i j h f hf
    · intro hj
      exact trace_disjoint renameOk now righe idx0 st j i h f hj hf
  · intro hij2 hmem
    have hstate := trace_mem_state renameOk now righe idx0 st i f hf j hij2
    unfold rowCorr at hmem
    have hfalse := findCorrFiles_not_rinominati _ _ _ f hmem
    rw [contains_eq_false_iff] at hfalse
    exact hfalse hstate

/-- C2 witness: row 0 renames `red-shoe.jpg`; row 1 neither renames it
nor sees it in its match set. -/
theorem rows_rename_disjoint_witness :
    "red-shoe.jpg" ∉
      (renameTrace okSempre "t" [rigaRossoA, rigaRossoB] 0 exSt).getD 1 [] ∧
    "red-shoe.jpg" ∉ rowCorr okSempre "t" [rigaRossoA, rigaRossoB] 0 exSt 1 :=
  have h := rows_rename_disjoint okSempre "t" [rigaRossoA, rigaRossoB] 0 exSt
    0 1 (by decide) "red-shoe.jpg" (by decide)
  ⟨h.1, h.2 (by decide)⟩

/-! ### Conditional consumption (rename failures) -/

lemma renameLoop_indice (renameOk : String → String → Bool) (ean : String) :
    ∀ (files : List String) (i : Nat) (st : RenameState),
      (renameLoop renameOk ean files i st).stato.indiceFile
        = (successi renameOk ean files i).foldl eraseKey st.indiceFile := by
  intro files
  induction files with
  | nil => intro i st; rfl
  | cons f fs ih =>
    intro i st
    by_cases hg : renameOk f (nuovoNome ean i f) = true
    · simp only [renameLoop, successi, hg, if_true, List.foldl_cons]
      rw [ih, delCaught_eq_eraseKey]
    · simp only [renameLoop, successi, hg, Bool.false_eq_true, if_false]
      exact ih _ _

lemma eraseKey_preserve (f lo g : String) :
    ∀ idx : List (String × String), f ≠ g → (f, lo) ∈ idx →
      (f, lo) ∈ eraseKey idx g := by
  intro idx
  induction idx with
  | nil => intro _ h; exact absurd h (List.not_mem_nil _)
  | cons p t ih =>
    intro hfg hmem
    by_cases hp : p.1 = g
    · have hcond : (p.1 == g) = true := by simpa using hp
      simp only [eraseKey, hcond, if_true]
      rcases List.mem_cons.mp hmem with heq | ht
      · exact absurd ((congrArg Prod.fst heq).trans hp) hfg
      · exact ht
    · have hp' : (p.1 == g) = false := by simpa using hp
      simp only [eraseKey, hp', Bool.false_eq_true, if_false]
      rcases List.mem_cons.mp hmem with heq | ht
      · exact heq ▸ List.mem_cons_self _ _
      · exact List.mem_cons_of_mem _ (ih hfg ht)

lemma foldl_eraseKey_preserve (f lo : String) :
    ∀ (names : List String) (idx : List (String × String)),
      f ∉ names → (f, lo) ∈ idx → (f, lo) ∈ names.foldl eraseKey idx := by
  intro names
  induction names with
  | nil => intro idx _ h; exact h
  | cons g gs ih =>
    intro idx hn hmem
    rw [List.foldl_cons]
    exact ih _ (fun h => hn (List.mem_cons_of_mem _ h))
      (eraseKey_preserve f lo g idx (fun h => hn (h ▸ List.mem_cons_self _ _)) hmem)

/-- C3 counterexample: when every rename fails, the matched entry is NOT
removed from the index — after processing the row the index is unchanged
and a later row's match set still contains the file. -/
theorem failed_rename_stays_in_index_cex :
    (processRow okMai "t" 0 rigaRossoA exSt).indiceFile = exIdx ∧
    "red-shoe.jpg" ∈ rowCorr okMai "t" [rigaRossoA, rigaRossoB] 0 exSt 1 := by
  constructor
  · decide
  · decide

/-- C3 amended: consumption from the index is conditional on rename
success — exactly the successfully renamed files are deleted, and a file
whose rename failed keeps its index entry. -/
theorem consumption_conditional_on_success (renameOk : String → String → Bool)
    (ean : String) (files : List String) (i : Nat) (st : RenameState) :
    (renameLoop renameOk ean files i st).stato.indiceFile
      = (successi renameOk ean files i).foldl eraseKey st.indiceFile ∧
    ∀ f lo, (f, lo) ∈ st.indiceFile → f ∉ successi renameOk ean files i →
      (f, lo) ∈ (renameLoop renameOk ean files i st).stato.indiceFile := by
  refine ⟨renameLoop_indice renameOk ean files i st, ?_⟩
  intro f lo hmem hns
  rw [renameLoop_indice]
  exact foldl_eraseKey_preserve f lo _ _ hns hmem

/-- C3 amended witness: `red-shoe.jpg`'s rename fails and its entry
survives in the index. -/
theorem consumption_conditional_witness :
    ("red-shoe.jpg", "red-shoe.jpg") ∈
      (renameLoop okParziale "1111" ["red-shoe.jpg", "red-shoe-2.jpg"] 0
        ⟨exIdx, []⟩).stato.indiceFile :=
  (consumption_conditional_on_success okParziale "1111"
      ["red-shoe.jpg", "red-shoe-2.jpg"] 0 ⟨exIdx, []⟩).2
    "red-shoe.jpg" "red-shoe.jpg" (by decide) (by decide)

/-! ### Row skipping -/

/-- C4 counterexample: a whitespace-only EAN cell is blank after trimming,
yet the row is NOT skipped — it is processed and lands in the unmatched
report (with an empty EAN). -/
theorem blank_ean_row_not_skipped_cex :
    pyStrip "  " = "" ∧
    (processRow okSempre "t" 0 ⟨[("Campo1", some "zz")], some "  "⟩
        exSt).eanNonTrovati
      = [⟨1, "", "t", [("Campo1", "zz")]⟩] := by
  constructor
  · decide
  · decide

/-- C4 amended: a row is skipped (state untouched) iff its EAN cell is
null/missing; every row with a present EAN cell — blank or not — reaches
exactly one of assignment (`codesi`) or the unmatched report. -/
theorem skip_iff_ean_cell_missing (renameOk : String → String → Bool)
    (now : String) (idx : Nat) (r : Riga) (st : SheetState) :
    (r.eanCell = none → processRow renameOk now idx r st = st) ∧
    (∀ s, r.eanCell = some s →
      (processRow renameOk now idx r st).codesi.length
          + (processRow renameOk now idx r st).eanNonTrovati.length
        = st.codesi.length + st.eanNonTrovati.length + 1) := by
  constructor
  · intro h; unfold processRow; rw [h]
  · intro s hs
    unfold processRow
    rw [hs]
    simp only []
    cases hc : (findCorrFiles ((estraiValori r.attrs).map (fun p => p.2))
        st.indiceFile st.fileRinominati).isEmpty with
    | true =>
      simp only [hc, if_true, List.length_append, List.length_singleton]
      omega
    | false =>
      simp only [hc, Bool.false_eq_true, if_false, List.length_append,
        List.length_singleton]
      omega

/-- C4 amended witness: a null EAN cell skips the row; a whitespace EAN
cell does not. -/
theorem skip_iff_ean_cell_missing_witness :
    processRow okSempre "t" 0 ⟨[("Color", some "red")], none⟩ exSt = exSt ∧
    (processRow okSempre "t" 0 ⟨[], some " "⟩ exSt).codesi.length
        + (processRow okSempre "t" 0 ⟨[], some " "⟩ exSt).eanNonTrovati.length
      = exSt.codesi.length + exSt.eanNonTrovati.length + 1 :=
  ⟨(skip_iff_ean_cell_missing okSempre "t" 0 ⟨[("Color", some "red")], none⟩
      exSt).1 rfl,
   (skip_iff_ean_cell_missing okSempre "t" 0 ⟨[], some " "⟩ exSt).2 " " rfl⟩

/-! ### Target names of the assignment -/

lemma renameLoop_chiamate_fst (renameOk : String → String → Bool) (ean : String) :
    ∀ (files : List String) (i : Nat) (st : RenameState),
      (renameLoop renameOk ean files i st).chiamate.map (fun c => c.1) = files := by
  intro files
  induction files with
  | nil => intro i st; rfl
  | cons f fs ih =>
    intro i st
    by_cases hg : renameOk f (nuovoNome ean i f) = true
    · simp only [renameLoop, hg, if_true, List.map_cons, ih]
    · simp only [renameLoop, hg, Bool.false_eq_true, if_false, List.map_cons, ih]

lemma renameLoop_chiamate_get (renameOk : String → String → Bool) (ean : String) :
    ∀ (files : List String) (k i : Nat) (st : RenameState),
      (renameLoop renameOk ean files k st).chiamate.get? i
        = (files.get? i).map (fun f => (f, nuovoNome ean (k + i) f)) := by
  intro files
  induction files with
  | nil => intro k i st; simp [renameLoop]
  | cons f fs ih =>
    intro k i st
    have harith : ∀ i' : Nat, k + 1 + i' = k + (i' + 1) := fun i' => by omega
    by_cases hg : renameOk f (nuovoNome ean k f) = true
    · simp only [renameLoop, hg, if_true]
      cases i with
      | zero => simp
      | succ i' =>
        simp only [List.get?_cons_succ]
        rw [ih, harith i']
    · simp only [renameLoop, hg, Bool.false_eq_true, if_false]
      cases i with
      | zero => simp
      | succ i' =>
        simp only [List.get?_cons_succ]
        rw [ih, harith i']

/-- C5: the `i`-th rename call of a row with EAN `ean` and matched
sequence `files` renames the `i`-th matched file to
`{ean}-{i}{its original extension}`, for every `i < |files|`, and every
matched file gets exactly one call, in sequence order. -/
theorem assign_target_names (renameOk : String → String → Bool) (ean : String)
    (files : List String) (st : RenameState) :
    (rename_files renameOk files ean st).chiamate.map (fun c => c.1) = files ∧
    ∀ i (hi : i < files.length),
      (rename_files renameOk files ean st).chiamate.get? i
        = some (files.get ⟨i, hi⟩,
            ean ++ "-" ++ toString i ++ splitextExt (files.get ⟨i, hi⟩)) := by
  refine ⟨renameLoop_chiamate_fst renameOk ean files 0 st, ?_⟩
  intro i hi
  rw [rename_files, renameLoop_chiamate_get renameOk ean files 0 i st,
    List.get?_eq_get hi]
  simp [nuovoNome]

/-- C5 witness: the second matched file is renamed to `1111-1.jpg`. -/
theorem assign_target_names_witness :
    (rename_files okSempre ["red-shoe.jpg", "red-shoe-2.jpg"] "1111"
        ⟨exIdx, []⟩).chiamate.get? 1 = some ("red-shoe-2.jpg", "1111-1.jpg") := by
  have h := (assign_target_names okSempre "1111"
      ["red-shoe.jpg", "red-shoe-2.jpg"] ⟨exIdx, []⟩).2 1 (by decide)
  rw [h]
  decide

/-! ### Rename failures do not abort the batch -/

lemma renameLoop_conteggio (renameOk : String → String → Bool) (ean : String) :
    ∀ (files : List String) (i : Nat) (st : RenameState),
      (renameLoop renameOk ean files i st).conteggio
        = (successi renameOk ean files i).length := by
  intro files
  induction files with
  | nil => intro i st; rfl
  | cons f fs ih =>
    intro i st
    by_cases hg : renameOk f (nuovoNome ean i f) = true
    · simp only [renameLoop, successi, hg, if_true, List.length_cons, ih]
    · simp only [renameLoop, successi, hg, Bool.false_eq_true, if_false, ih]

lemma successi_length_le (renameOk : String → String → Bool) (ean : String) :
    ∀ (files : List String) (i : Nat),
      (successi renameOk ean files i).length ≤ files.length := by
  intro files
  induction files with
  | nil => intro i; simp [successi]
  | cons f fs ih =>
    intro i
    by_cases hg : renameOk f (nuovoNome ean i f) = true
    · simp only [successi, hg, if_true, List.length_cons]
      exact Nat.succ_le_succ (ih _)
    · simp only [successi, hg, Bool.false_eq_true, if_false, List.length_cons]
      exact Nat.le_succ_of_le (ih _)

/-- C8: a rename failure does not abort the batch — every file of the
matched sequence gets its rename attempted, the call returns exactly the
number of files whose rename succeeded, and that count can only fall
short of (never exceed) the matched-sequence length. -/
theorem rename_failure_no_abort (renameOk : String → String → Bool)
    (ean : String) (files : List String) (st : RenameState) :
    (rename_files renameOk files ean st).conteggio
        = (successi renameOk ean files 0).length ∧
    (rename_files renameOk files ean st).chiamate.map (fun c => c.1) = files ∧
    (successi renameOk ean files 0).length ≤ files.length :=
  ⟨renameLoop_conteggio renameOk ean files 0 st,
   renameLoop_chiamate_fst renameOk ean files 0 st,
   successi_length_le renameOk ean files 0⟩

/-- C8 witness: with one failing rename out of two, both files are
attempted and the returned count is 1. -/
theorem rename_failure_no_abort_witness :
    (rename_files okParziale ["red-shoe.jpg", "red-shoe-2.jpg"] "3333"
        ⟨exIdx, []⟩).conteggio = 1 ∧
    (rename_files okParziale ["red-shoe.jpg", "red-shoe-2.jpg"] "3333"
        ⟨exIdx, []⟩).chiamate.map (fun c => c.1)
      = ["red-shoe.jpg", "red-shoe-2.jpg"] := by
  have h := rename_failure_no_abort okParziale "3333"
    ["red-shoe.jpg", "red-shoe-2.jpg"] ⟨exIdx, []⟩
  refine ⟨?_, h.2.1⟩
  rw [h.1]
  decide

/-! ### Removal of an absent index entry -/

/-- C9 counterexample: the code's removal primitive is Python's `del`,
which raises `KeyError` on an absent name — it does not fail silently. -/
theorem remove_absent_raises_cex :
    pyDictDel [("b.jpg", "b.jpg")] "a.jpg" = Except.error "KeyError" := by
  have h : keyPresente [("b.jpg", "b.jpg")] "a.jpg" = false := by decide
  unfold pyDictDel
  rw [h]
  simp

/-- C9 amended: removing an absent name raises `KeyError`, but the
exception is caught by `rename_files`' `try/except`, so no error
propagates and the index — hence the count of remaining entries — is
unchanged. -/
theorem remove_absent_caught_count_unchanged (idx : List (String × String))
    (nome : String) (h : keyPresente idx nome = false) :
    pyDictDel idx nome = Except.error "KeyError" ∧
    delCaught idx nome = idx ∧
    (delCaught idx nome).length = idx.length := by
  have h1 : pyDictDel idx nome = Except.error "KeyError" := by
    unfold pyDictDel
    rw [h]
    simp
  refine ⟨h1, ?_, ?_⟩
  · unfold delCaught; rw [h1]
  · unfold delCaught; rw [h1]

/-- C9 amended witness. -/
theorem remove_absent_caught_witness :
    delCaught [("b.jpg", "b.jpg")] "a.jpg" = [("b.jpg", "b.jpg")] ∧
    (delCaught [("b.jpg", "b.jpg")] "a.jpg").length = 1 :=
  have h := remove_absent_caught_count_unchanged [("b.jpg", "b.jpg")] "a.jpg"
    (by decide)
  ⟨h.2.1, h.2.2⟩

/-! ### Raw attribute values in unmatched records -/

/-- C10: the record appended for an unmatched row stores, for each
non-null attribute cell, the raw original cell text (not the lowercased,
trimmed matching value), and has no entry for null cells. -/
theorem unmatched_record_raw_values (renameOk : String → String → Bool)
    (now : String) (idx : Nat) (r : Riga) (st : SheetState) (s : String)
    (h1 : r.eanCell = some s)
    (h2 : findCorrFiles ((estraiValori r.attrs).map (fun p => p.2))
        st.indiceFile st.fileRinominati = []) :
    (processRow renameOk now idx r st).eanNonTrovati
      = st.eanNonTrovati ++ [⟨idx + 1, pyStrip s, now, rawAttrVals r.attrs⟩] ∧
    ∀ col v, (col, v) ∈ rawAttrVals r.attrs ↔ (col, some v) ∈ r.attrs := by
  constructor
  · unfold processRow
    rw [h1]
    simp only [h2, List.isEmpty_nil, if_true]
  · intro col v
    simp only [rawAttrVals, List.mem_filterMap]
    constructor
    · rintro ⟨⟨c, oc⟩, hmem, heq⟩
      cases oc with
      | none => simp at heq
      | some w =>
        simp only [Option.map_some', Option.some.injEq, Prod.mk.injEq] at heq
        obtain ⟨rfl, rfl⟩ := heq
        exact hmem
    · intro hmem
      exact ⟨(col, some v), hmem, rfl⟩

/-- C10 witness: cell `" RED "` is stored verbatim (while matching used
`"red"`), and the null `Part` cell is omitted from the record. -/
theorem unmatched_record_raw_values_witness :
    (processRow okSempre "t" 0
        ⟨[("Color", some " RED "), ("Part", none)], some "33"⟩
        ⟨[], [], [], [], [], 0⟩).eanNonTrovati
      = [⟨1, "33", "t", [("Color", " RED ")]⟩] := by
  have h := unmatched_record_raw_values okSempre "t" 0
    ⟨[("Color", some " RED "), ("Part", none)], some "33"⟩
    ⟨[], [], [], [], [], 0⟩ "33" rfl (by decide)
  rw [h.1]
  decide

/-! ### Unmatched accounting -/

lemma processRow_eanNonTrovati_map (renameOk : String → String → Bool)
    (now : String) (idx0 : Nat) (r : Riga) (st : SheetState) :
    (processRow renameOk now idx0 r st).eanNonTrovati.map (fun x => x.rigaExcel)
      = st.eanNonTrovati.map (fun x => x.rigaExcel)
        ++ (if rowNoMatch r st then [idx0 + 1] else []) := by
  unfold processRow rowNoMatch
  cases r.eanCell with
  | none => simp
  | some eanRaw =>
    simp only []
    cases hc : (findCorrFiles ((estraiValori r.attrs).map (fun p => p.2))
        st.indiceFile st.fileRinominati).isEmpty with
    | true => simp [hc]
    | false => simp [hc]

lemma processRows_eanNonTrovati_map (renameOk : String → String → Bool)
    (now : String) :
    ∀ (righe : List Riga) (idx0 : Nat) (st : SheetState),
      (processRows renameOk now righe idx0 st).eanNonTrovati.map
          (fun x => x.rigaExcel)
        = st.eanNonTrovati.map (fun x => x.rigaExcel)
          ++ ((List.range righe.length).filter
              (rowUnmatched renameOk now righe idx0 st)).map
              (fun k => idx0 + k + 1) := by
  intro righe
  induction righe with
  | nil => intro idx0 st; simp [processRows]
  | cons r rs ih =>
    intro idx0 st
    simp only [processRows]
    rw [ih, processRow_eanNonTrovati_map, List.append_assoc]
    congr 1
    have h0 : rowUnmatched renameOk now (r :: rs) idx0 st 0 = rowNoMatch r st := rfl
    have hsucc : ((rowUnmatched renameOk now (r :: rs) idx0 st) ∘ Nat.succ)
        = rowUnmatched renameOk now rs (idx0 + 1)
            (processRow renameOk now idx0 r st) :=
      funext fun k => rfl
    have harith : ((fun k => idx0 + k + 1) ∘ Nat.succ)
        = (fun k => idx0 + 1 + k + 1) := funext fun k => by
      simp only [Function.comp_apply]
      omega
    rw [List.length_cons, List.range_succ_eq_map, List.filter_cons, h0,
      List.filter_map, hsucc]
    cases hb : rowNoMatch r st with
    | true =>
      simp only [if_true, List.map_cons, List.map_map, harith]
      rfl
    | false =>
      simp only [Bool.false_eq_true, if_false, List.map_map, harith,
        List.nil_append]

lemma make_report_none_iff (recs : List InfoRiga) (cols : List String) :
    make_report recs cols = none ↔ recs.length = 0 := by
  unfold make_report
  constructor
  · intro h
    by_cases he : recs.isEmpty = true
    · simpa [List.length_eq_zero] using List.isEmpty_iff.mp he
    · rw [if_neg he] at h
      exact absurd h (by simp)
  · intro h
    have hnil : recs = [] := List.length_eq_zero.mp h
    simp [hnil]

lemma make_report_some_records (recs : List InfoRiga) (cols : List String)
    (hdr : List String) (out : List InfoRiga) :
    make_report recs cols = some (hdr, out) → out = recs := by
  unfold make_report
  by_cases he : recs.isEmpty = true
  · simp [he]
  · rw [if_neg he]
    intro h
    injection h with h'
    exact (congrArg Prod.snd h').symm

/-- C6: over a sheet whose rows all have either a null EAN cell or a
non-blank EAN, the number of unmatched records equals the number M of
processed rows whose match set is empty at the moment they are processed,
the records carry exactly the 1-based positions of those rows, the report
is written iff M ≥ 1, and it contains exactly the accumulated records. -/
theorem unmatched_accounting (renameOk : String → String → Bool) (now : String)
    (righe : List Riga) (cols : List String) (st : SheetState)
    (h0 : st.eanNonTrovati = [])
    (hval : ∀ r ∈ righe, ∀ s, r.eanCell = some s → pyStrip s ≠ "") :
    (process_sheet renameOk now righe st).eanNonTrovati.length
        = ((List.range righe.length).filter
            (rowUnmatched renameOk now righe 0 st)).length ∧
    (process_sheet renameOk now righe st).eanNonTrovati.map (fun x => x.rigaExcel)
        = ((List.range righe.length).filter
            (rowUnmatched renameOk now righe 0 st)).map (fun k => k + 1) ∧
    (make_report (process_sheet renameOk now righe st).eanNonTrovati cols = none ↔
      ((List.range righe.length).filter
          (rowUnmatched renameOk now righe 0 st)).length = 0) ∧
    ∀ hdr recs,
      make_report (process_sheet renameOk now righe st).eanNonTrovati cols
          = some (hdr, recs) →
        recs = (process_sheet renameOk now righe st).eanNonTrovati := by
  have hmap := processRows_eanNonTrovati_map renameOk now righe 0 st
  rw [h0] at hmap
  simp only [List.map_nil, List.nil_append] at hmap
  have hmap' : (process_sheet renameOk now righe st).eanNonTrovati.map
      (fun x => x.rigaExcel)
      = ((List.range righe.length).filter
          (rowUnmatched renameOk now righe 0 st)).map (fun k => k + 1) := by
    rw [process_sheet, hmap]
    congr 1
    funext k
    omega
  have hlen : (process_sheet renameOk now righe st).eanNonTrovati.length
      = ((List.range righe.length).filter
          (rowUnmatched renameOk now righe 0 st)).length := by
    have := congrArg List.length hmap'
    simpa using this
  refine ⟨hlen, hmap', ?_, ?_⟩
  · rw [make_report_none_iff, hlen]
  · intro hdr recs h
    exact make_report_some_records _ _ _ _ h

/-- C6 witness: with the red-shoe pool, row A consumes everything and
row B is the single unmatched record. -/
theorem unmatched_accounting_witness :
    (process_sheet okSempre "t" [rigaRossoA, rigaRossoB] exSt).eanNonTrovati.length
        = ((List.range ([rigaRossoA, rigaRossoB] : List Riga).length).filter
            (rowUnmatched okSempre "t" [rigaRossoA, rigaRossoB] 0 exSt)).length ∧
    ((List.range ([rigaRossoA, rigaRossoB] : List Riga).length).filter
        (rowUnmatched okSempre "t" [rigaRossoA, rigaRossoB] 0 exSt)).length = 1 := by
  have hval : ∀ r ∈ ([rigaRossoA, rigaRossoB] : List Riga), ∀ s,
      r.eanCell = some s → pyStrip s ≠ "" := by
    intro r hr s hs
    have hr2 : r = rigaRossoA ∨ r = rigaRossoB := by simpa using hr
    rcases hr2 with rfl | rfl
    · have hseq : "1111" = s := by simpa [rigaRossoA] using hs
      subst hseq
      decide
    · have hseq : "2222" = s := by simpa [rigaRossoB] using hs
      subst hseq
      decide
  exact ⟨(unmatched_accounting okSempre "t" [rigaRossoA, rigaRossoB] [] exSt
    rfl hval).1, by decide⟩

/-! ### Order sensitivity -/

/-- C7: with the pool `{red-shoe.jpg, red-shoe-2.jpg}` and two rows whose
only attribute value is `red`, the first-processed row consumes both
files and the other lands in the unmatched report; reversing the input
row order reverses which row is unmatched. -/
theorem order_sensitivity_concrete :
    renameTrace okSempre "t" [rigaRossoA, rigaRossoB] 0 exSt
        = [["red-shoe.jpg", "red-shoe-2.jpg"], []] ∧
    (process_sheet okSempre "t" [rigaRossoA, rigaRossoB] exSt).eanNonTrovati.map
        (fun x => x.ean) = ["2222"] ∧
    renameTrace okSempre "t" [rigaRossoB, rigaRossoA] 0 exSt
        = [["red-shoe.jpg", "red-shoe-2.jpg"], []] ∧
    (process_sheet okSempre "t" [rigaRossoB, rigaRossoA] exSt).eanNonTrovati.map
        (fun x => x.ean) = ["1111"] := by
  refine ⟨by decide, by decide, by decide, by decide⟩
